import Mathlib

/-!
# MClass admission engine — verification development

Shallow embedding of the M-Class enrollment backend (Express/Prisma,
TypeScript).  The persistent store (PostgreSQL via Prisma) is modelled as an
explicit `DB` value threaded through every operation; each Prisma
`$transaction` body becomes a pure function `DB → DB × result`, which is
faithful because the source wraps its check-then-insert in one serializable
transaction, so interleavings reduce to some sequential order.

Timestamps are `Int` (epoch milliseconds, as `Date.getTime()` in the
source); ids are `Nat` (the source uses UUID strings; only equality of ids
is ever used).

Embedded source locations:
* `src/services/user.ts` (concatenated dump; the second document in the
  file is `ApplicationService`): `createApplication`, `cancelApplication`,
  `getUserApplications`, `getClassApplications`, `getApplicationStats`,
  `deleteApplicationsByClassId`.
* `src/services/mclass.ts` (`src/unnamed/part_010`): `createClass`,
  `deleteClass`, `getClassStats`.
* `src/controllers/application.ts`: `applyToClass`, `cancelApplication`
  (precondition order and catch-block error mapping).
* `src/controllers/mclass.ts`: `createClass` validation, `getClasses`
  per-class stats.
* `src/middleware/validation.ts`: `mclassValidation.create` date/duration
  custom validators.
* `backup_data.sql`: unique index `applications_userId_classId_key`,
  FK `applications_classId_fkey ... ON DELETE CASCADE`.
-/

namespace MClass

/-- Embeds `mclasses` row: id, maxParticipants, startAt, endAt, hostId
(title/description omitted: no embedded operation branches on them after
creation-time validation, which is modelled on the request instead). -/
structure MClassRec where
  id : Nat
  maxParticipants : Nat
  startAt : Int
  endAt : Int
  hostId : Nat
deriving DecidableEq, Repr

/-- Embeds `applications` row: id omitted (opaque, never branched on), userId,
classId, createdAt (the `appliedAt` timestamp). -/
structure AppRec where
  userId : Nat
  classId : Nat
  createdAt : Int
deriving DecidableEq, Repr

/-- The persistent store: the `mclasses` and `applications` tables. -/
structure DB where
  classes : List MClassRec
  apps : List AppRec
deriving DecidableEq, Repr

/-- Embeds `mClass.findUnique({ where: { id } })`. -/
def findClass (db : DB) (c : Nat) : Option MClassRec :=
  db.classes.find? (fun k => k.id == c)

/-- Embeds `application.findUnique({ where: { unique_user_class_application:
{ userId, classId } } })`. -/
def findApp (db : DB) (u c : Nat) : Option AppRec :=
  db.apps.find? (fun a => a.userId == u && a.classId == c)

/-- Embeds `_count.applications` for a class — the derived occupancy. -/
def occupancy (db : DB) (c : Nat) : Nat :=
  db.apps.countP (fun a => a.classId == c)

/-- Errors thrown inside `ApplicationService.createApplication`'s
transaction ('Class not found', 'Class is fully booked', 'User has already
applied to this class'). -/
inductive SvcError where
  | classNotFound
  | fullyBooked
  | alreadyApplied
deriving DecidableEq, Repr

/-- Embeds `ApplicationService.createApplication` (src/services/user.ts, second
document, lines 295–371): one transaction that (1) loads the class with its
application count, throwing 'Class not found' if absent; (2) throws 'Class
is fully booked' when `currentApplications >= maxParticipants`; (3) throws
'User has already applied to this class' when a record for (userId,
classId) exists; (4) otherwise inserts the application.  `now` is the
record's `createdAt` (Prisma default `now()`). -/
def createApplication (db : DB) (u c : Nat) (now : Int) :
    DB × Except SvcError AppRec :=
  match findClass db c with
  | none => (db, .error .classNotFound)
  | some k =>
    if k.maxParticipants ≤ occupancy db c then
      (db, .error .fullyBooked)
    else
      match findApp db u c with
      | some _ => (db, .error .alreadyApplied)
      | none =>
        let a : AppRec := ⟨u, c, now⟩
        ({ db with apps := db.apps ++ [a] }, .ok a)

/-- The error outcomes of `ApplicationController.applyToClass` (HTTP codes
in parentheses): NOT_FOUND (404), VALIDATION_ERROR 'already started' (400),
CONFLICT (409), CAPACITY_EXCEEDED (409). -/
inductive ApplyError where
  | classNotFound
  | classAlreadyStarted
  | alreadyApplied
  | capacityExceeded
deriving DecidableEq, Repr

/-- Embeds `ApplicationController.applyToClass` (src/controllers/application.ts,
lines 15–181): before calling the service it (1) loads the class, 404 when
absent; (2) rejects when `mclass.startAt <= now`; then delegates to
`createApplication` and maps the thrown service errors to responses. -/
def applyToClass (db : DB) (now : Int) (u c : Nat) :
    DB × Except ApplyError AppRec :=
  match findClass db c with
  | none => (db, .error .classNotFound)
  | some k =>
    if k.startAt ≤ now then
      (db, .error .classAlreadyStarted)
    else
      match createApplication db u c now with
      | (db2, .ok a) => (db2, .ok a)
      | (db2, .error .classNotFound) => (db2, .error .classNotFound)
      | (db2, .error .fullyBooked) => (db2, .error .capacityExceeded)
      | (db2, .error .alreadyApplied) => (db2, .error .alreadyApplied)

/-- Firing `Apply(classId, userId)` once per user in `us`, in some
serialization order: the source's serializable transaction makes any set of
concurrent Apply calls equivalent to such a sequential run. -/
def applyAll (now : Int) (c : Nat) (us : List Nat) (db : DB) :
    DB × List (Except ApplyError AppRec) :=
  match us with
  | [] => (db, [])
  | u :: rest =>
    let s1 := applyToClass db now u c
    let s2 := applyAll now c rest s1.1
    (s2.1, s1.2 :: s2.2)

/-- Did an Apply call succeed (HTTP 201)? -/
def applyOk : Except ApplyError AppRec → Bool
  | .ok _ => true
  | .error _ => false

instance : DecidableEq (Except ApplyError AppRec) := fun x y =>
  match x, y with
  | .ok a, .ok b =>
    if h : a = b then .isTrue (by rw [h]) else .isFalse (by simp [h])
  | .error e, .error f =>
    if h : e = f then .isTrue (by rw [h]) else .isFalse (by simp [h])
  | .ok _, .error _ => .isFalse (by simp)
  | .error _, .ok _ => .isFalse (by simp)

/-- The single error of `ApplicationService.cancelApplication`: Prisma
P2025 (record to delete not found) remapped to 'Application not found'. -/
inductive CancelSvcError where
  | applicationNotFound
deriving DecidableEq, Repr

/-- Embeds `ApplicationService.cancelApplication` (src/services/user.ts, second
document, lines 498–516): `application.delete` on the unique
(userId, classId) key; Prisma deletes the matching row, or raises P2025
when none exists, remapped to 'Application not found'. -/
def cancelApplicationSvc (db : DB) (u c : Nat) :
    DB × Except CancelSvcError Unit :=
  match findApp db u c with
  | some _ =>
    ({ db with apps := db.apps.eraseP (fun a => a.userId == u && a.classId == c) },
     .ok ())
  | none => (db, .error .applicationNotFound)

/-- Error outcomes of `ApplicationController.cancelApplication`. -/
inductive CancelError where
  | classNotFound
  | classAlreadyStarted
  | applicationNotFound
deriving DecidableEq, Repr

/-- Embeds `ApplicationController.cancelApplication`
(src/controllers/application.ts, lines 345–452): loads the class (404 when
absent), rejects when `mclass.startAt <= now`, then calls the service
delete; a thrown 'not found' becomes the 404 'Application not found'
response. -/
def cancelApplication (db : DB) (now : Int) (u c : Nat) :
    DB × Except CancelError Unit :=
  match findClass db c with
  | none => (db, .error .classNotFound)
  | some k =>
    if k.startAt ≤ now then
      (db, .error .classAlreadyStarted)
    else
      match cancelApplicationSvc db u c with
      | (db2, .ok _) => (db2, .ok ())
      | (db2, .error .applicationNotFound) => (db2, .error .applicationNotFound)

/-- The single error of `MClassService.deleteClass`: P2025 → 'Class not
found'. -/
inductive DeleteClassError where
  | classNotFound
deriving DecidableEq, Repr

/-- Embeds `MClassService.deleteClass` (src/unnamed/part_010, lines 165–180):
`mClass.delete` by id (P2025 → 'Class not found' when absent); the schema's
`applications_classId_fkey ... ON DELETE CASCADE` (backup_data.sql line
183) removes every application of the class in the same statement. -/
def deleteClass (db : DB) (c : Nat) : DB × Except DeleteClassError Unit :=
  match findClass db c with
  | some _ =>
    ({ classes := db.classes.eraseP (fun k => k.id == c),
       apps := db.apps.filter (fun a => !(a.classId == c)) },
     .ok ())
  | none => (db, .error .classNotFound)

/-- Embeds `MClassService.createClass` (src/unnamed/part_010, lines 32–54):
plain `mClass.create` insert. -/
def createClassSvc (db : DB) (k : MClassRec) : DB :=
  { db with classes := db.classes ++ [k] }

/-- Embeds `orderBy: { createdAt: 'asc' }` — the class-listing order
('First come, first served'). -/
def byCreatedAtAsc : AppRec → AppRec → Prop :=
  fun a b => a.createdAt ≤ b.createdAt

instance : DecidableRel byCreatedAtAsc :=
  fun a b => inferInstanceAs (Decidable (a.createdAt ≤ b.createdAt))

instance : IsTotal AppRec byCreatedAtAsc :=
  ⟨fun a b => Int.le_total a.createdAt b.createdAt⟩

instance : IsTrans AppRec byCreatedAtAsc :=
  ⟨fun _ _ _ h1 h2 => Int.le_trans h1 h2⟩

/-- Embeds `orderBy: { createdAt: 'desc' }` — the user-history order (most recent
first). -/
def byCreatedAtDesc : AppRec → AppRec → Prop :=
  fun a b => b.createdAt ≤ a.createdAt

instance : DecidableRel byCreatedAtDesc :=
  fun a b => inferInstanceAs (Decidable (b.createdAt ≤ a.createdAt))

instance : IsTotal AppRec byCreatedAtDesc :=
  ⟨fun a b => Int.le_total b.createdAt a.createdAt⟩

instance : IsTrans AppRec byCreatedAtDesc :=
  ⟨fun _ _ _ h1 h2 => Int.le_trans h2 h1⟩

/-- Embeds `Math.ceil(total / limit)` on naturals (limit is ≥ 1 in every caller:
the controllers clamp it to [1, 50]). -/
def ceilPages (total limit : Nat) : Nat :=
  (total + limit - 1) / limit

/-- Embeds `ApplicationService.getClassApplications` (src/services/user.ts, second
document, lines 439–477): `findMany` for the class ordered by `createdAt`
ascending with `skip = (page-1)*limit`, `take = limit`, alongside a `count`
with the same filter.  Returns (applications, total, totalPages). -/
def getClassApplications (db : DB) (c : Nat) (page limit : Nat) :
    List AppRec × Nat × Nat :=
  let matching := db.apps.filter (fun a => a.classId == c)
  let sorted := matching.insertionSort byCreatedAtAsc
  (((sorted.drop ((page - 1) * limit)).take limit),
   matching.length, ceilPages matching.length limit)

/-- Embeds `ApplicationService.getUserApplications` (src/services/user.ts, second
document, lines 396–437): `findMany` for the user ordered by `createdAt`
descending with the same skip/take pagination, alongside a `count`. -/
def getUserApplications (db : DB) (u : Nat) (page limit : Nat) :
    List AppRec × Nat × Nat :=
  let matching := db.apps.filter (fun a => a.userId == u)
  let sorted := matching.insertionSort byCreatedAtDesc
  (((sorted.drop ((page - 1) * limit)).take limit),
   matching.length, ceilPages matching.length limit)

/-- Result shape of `ApplicationService.getApplicationStats` and
`MClassService.getClassStats` (identical fields; the former names the count
`currentApplications`, the latter `currentParticipants`). -/
structure ClassStats where
  current : Nat
  maxParticipants : Nat
  availableSpots : Int
  isFullyBooked : Bool
deriving DecidableEq, Repr

/-- Embeds `ApplicationService.getApplicationStats` (src/services/user.ts, second
document, lines 518–553): loads maxParticipants and the application count;
`availableSpots = maxParticipants - currentApplications` computed before
clamping, returned as `Math.max(0, availableSpots)`, with
`isFullyBooked: availableSpots <= 0` on the unclamped value. -/
def getApplicationStats (db : DB) (c : Nat) : Option ClassStats :=
  match findClass db c with
  | none => none
  | some k =>
    let currentApplications := occupancy db c
    let availableSpots : Int :=
      (k.maxParticipants : Int) - (currentApplications : Int)
    some ⟨currentApplications, k.maxParticipants,
          max 0 availableSpots, decide (availableSpots ≤ 0)⟩

/-- Embeds `MClassService.getClassStats` (src/unnamed/part_010, lines 182–215):
byte-for-byte the same computation as `getApplicationStats`. -/
def getClassStats (db : DB) (c : Nat) : Option ClassStats :=
  match findClass db c with
  | none => none
  | some k =>
    let currentParticipants := occupancy db c
    let availableSpots : Int :=
      (k.maxParticipants : Int) - (currentParticipants : Int)
    some ⟨currentParticipants, k.maxParticipants,
          max 0 availableSpots, decide (availableSpots ≤ 0)⟩

/-- Embeds `MClassController.getClasses` per-class fields (src/controllers/
mclass.ts, lines 203–204): `availableSpots: Math.max(0, maxParticipants -
currentParticipants)` and `isFullyBooked: currentParticipants >=
maxParticipants`. -/
def classListEntryStats (maxParticipants currentParticipants : Nat) :
    Int × Bool :=
  (max 0 ((maxParticipants : Int) - (currentParticipants : Int)),
   decide (maxParticipants ≤ currentParticipants))

/-! ## Error propagation through the catch blocks

The service and controller wrap the transaction in try/catch; the thrown
value is either one of the service's own business errors or a storage-layer
(Prisma) error carrying a code such as P2002 (unique-constraint violation),
P2003 (FK violation) or P2034 (transaction write conflict / deadlock). -/

/-- A value thrown out of the `createApplication` transaction. -/
inductive Thrown where
  | classNotFound
  | fullyBooked
  | alreadyApplied
  | invalidReference
  | prismaKnown (code : String)
  | otherError (msg : String)
deriving DecidableEq, Repr

/-- The catch block of `ApplicationService.createApplication`
(src/services/user.ts, second document, lines 349–370): Prisma P2002 is
rethrown as 'User has already applied to this class', P2003 as 'Invalid
user ID or class ID'; the service's own business errors and every other
error are rethrown unchanged. -/
def createApplicationCatch : Thrown → Thrown
  | .prismaKnown code =>
    if code = "P2002" then .alreadyApplied
    else if code = "P2003" then .invalidReference
    else .prismaKnown code
  | e => e

/-- An HTTP error response: status code and error-code string. -/
structure HttpErrorResp where
  status : Nat
  code : String
deriving DecidableEq, Repr

/-- The catch block of `ApplicationController.applyToClass`
(src/controllers/application.ts, lines 110–181): matches the thrown
message against 'already applied' → 409 CONFLICT, 'Class is fully booked' →
409 CAPACITY_EXCEEDED, 'Class not found' → 404 NOT_FOUND, 'Invalid user ID
or class ID' → 400 VALIDATION_ERROR, anything else → 500
INTERNAL_SERVER_ERROR. -/
def applyToClassCatch : Thrown → HttpErrorResp
  | .alreadyApplied => ⟨409, "CONFLICT"⟩
  | .fullyBooked => ⟨409, "CAPACITY_EXCEEDED"⟩
  | .classNotFound => ⟨404, "NOT_FOUND"⟩
  | .invalidReference => ⟨400, "VALIDATION_ERROR"⟩
  | .prismaKnown _ => ⟨500, "INTERNAL_SERVER_ERROR"⟩
  | .otherError _ => ⟨500, "INTERNAL_SERVER_ERROR"⟩

/-! ## Class creation -/

/-- The body of a POST /api/mclasses request after JSON parsing and date
parsing (dates modelled as already-valid epoch-millisecond values; the
controller's NaN branches reject unparsable dates, which the `Int` model
has none of). -/
structure CreateClassReq where
  title : String
  description : String
  maxParticipants : Int
  startAt : Int
  endAt : Int
deriving DecidableEq, Repr

/-- Outcome of `MClassController.createClass`. -/
inductive CreateClassResult where
  | validationError (msg : String)
  | created (k : MClassRec)
deriving DecidableEq, Repr

/-- Embeds `MClassController.createClass` (src/controllers/mclass.ts, lines
11–175), the only handler on the creation route
(`mclassRouter.post('/', strictLimiter, ...adminOnly,
mclassController.createClass)`, src/routes/mclass.ts line 177 — no
validation middleware is attached).  In source order it rejects: title
falsy or length outside [3,100]; description falsy or longer than 500;
maxParticipants not a positive integer; `startDate <= now`;
`endDate <= startDate`.  If all pass it inserts the class via
`MClassService.createClass`.  It performs no duration check. -/
def createClass (db : DB) (now : Int) (freshId hostId : Nat)
    (r : CreateClassReq) : DB × CreateClassResult :=
  if r.title = "" ∨ r.title.length < 3 ∨ r.title.length > 100 then
    (db, .validationError "Title must be between 3 and 100 characters")
  else if r.description = "" ∨ r.description.length > 500 then
    (db, .validationError "Description must not exceed 500 characters")
  else if r.maxParticipants < 1 then
    (db, .validationError "Maximum participants must be a positive integer")
  else if r.startAt ≤ now then
    (db, .validationError "Start date must be in the future")
  else if r.endAt ≤ r.startAt then
    (db, .validationError "End date must be after start date")
  else
    let k : MClassRec :=
      ⟨freshId, r.maxParticipants.toNat, r.startAt, r.endAt, hostId⟩
    (createClassSvc db k, .created k)

/-- The date/duration custom validators of `mclassValidation.create`
(src/middleware/validation.ts, lines 135–176) — an express-validator
schema that is defined but attached to no route.  The `startAt` validator
rejects `start <= now` and `start >= endAt`; the `endAt` validator rejects
`end <= now`, duration below 30 minutes and duration above 8 hours
(milliseconds). -/
def mclassCreateDateErrors (now startAt endAt : Int) : List String :=
  (if startAt ≤ now then ["Start date must be in the future"] else []) ++
  (if endAt ≤ startAt then ["Start date must be before end date"] else []) ++
  (if endAt ≤ now then ["End date must be in the future"] else []) ++
  (if endAt - startAt < 30 * 60 * 1000 then
    ["Class duration must be at least 30 minutes"] else []) ++
  (if endAt - startAt > 8 * 60 * 60 * 1000 then
    ["Class duration must not exceed 8 hours"] else [])

/-! ## Reachable stores and the structural invariants -/

/-- Class ids are unique (`mclasses.id` is the primary key). -/
def IdsNodup (db : DB) : Prop :=
  (db.classes.map (fun k => k.id)).Nodup

/-- Every application references an existing class
(`applications_classId_fkey`). -/
def FkInv (db : DB) : Prop :=
  ∀ a ∈ db.apps, ∃ k ∈ db.classes, k.id = a.classId

/-- At most one application per (userId, classId) — the unique index
`applications_userId_classId_key`. -/
def PairUnique (db : DB) : Prop :=
  db.apps.Pairwise (fun a b => ¬(a.userId = b.userId ∧ a.classId = b.classId))

/-- The core capacity invariant: no class's occupancy exceeds its
capacity. -/
def CapInv (db : DB) : Prop :=
  ∀ k ∈ db.classes, occupancy db k.id ≤ k.maxParticipants

/-- The conjunction of the structural invariants. -/
def Inv (db : DB) : Prop :=
  IdsNodup db ∧ FkInv db ∧ PairUnique db ∧ CapInv db

/-- Stores reachable from the empty store by class creation (with a fresh
primary key), Apply, Cancel, and class deletion — each step through the
embedded operation, whatever its outcome (on an error outcome the
operations return the store unchanged). -/
inductive Reachable : DB → Prop where
  | empty : Reachable ⟨[], []⟩
  | create {db : DB} (k : MClassRec) : Reachable db →
      k.id ∉ db.classes.map (fun j => j.id) → Reachable (createClassSvc db k)
  | apply {db : DB} (now : Int) (u c : Nat) : Reachable db →
      Reachable (applyToClass db now u c).1
  | cancel {db : DB} (now : Int) (u c : Nat) : Reachable db →
      Reachable (cancelApplication db now u c).1
  | deleteCls {db : DB} (c : Nat) : Reachable db →
      Reachable (deleteClass db c).1

/-! ## Basic lemmas about the store operations -/

theorem findClass_some {db : DB} {c : Nat} {k : MClassRec}
    (h : findClass db c = some k) : k ∈ db.classes ∧ k.id = c := by
  have hmem := List.mem_of_find?_eq_some h
  have hp := List.find?_some h
  simp only [beq_iff_eq] at hp
  exact ⟨hmem, hp⟩

theorem findApp_none_iff {db : DB} {u c : Nat} :
    findApp db u c = none ↔
      ∀ a ∈ db.apps, ¬(a.userId = u ∧ a.classId = c) := by
  unfold findApp
  rw [List.find?_eq_none]
  constructor
  · intro h a ha
    have := h a ha
    simp only [Bool.and_eq_true, beq_iff_eq] at this
    exact this
  · intro h a ha
    have := h a ha
    simp only [Bool.and_eq_true, beq_iff_eq]
    exact this

theorem findApp_some {db : DB} {u c : Nat} {a : AppRec}
    (h : findApp db u c = some a) :
    a ∈ db.apps ∧ a.userId = u ∧ a.classId = c := by
  have hmem := List.mem_of_find?_eq_some h
  have hp := List.find?_some h
  simp only [Bool.and_eq_true, beq_iff_eq] at hp
  exact ⟨hmem, hp⟩

theorem occupancy_append_hit (db : DB) (c : Nat) (a : AppRec)
    (ha : a.classId = c) :
    occupancy { db with apps := db.apps ++ [a] } c = occupancy db c + 1 := by
  simp [occupancy, List.countP_append, List.countP_cons, ha]

/-- Full behavioural characterization of the embedded
`applyToClass` pipeline, by the five disjoint source branches. -/
theorem applyToClass_spec (db : DB) (now : Int) (u c : Nat) :
    (findClass db c = none →
        applyToClass db now u c = (db, .error .classNotFound)) ∧
    (∀ k, findClass db c = some k → k.startAt ≤ now →
        applyToClass db now u c = (db, .error .classAlreadyStarted)) ∧
    (∀ k, findClass db c = some k → now < k.startAt →
        k.maxParticipants ≤ occupancy db c →
        applyToClass db now u c = (db, .error .capacityExceeded)) ∧
    (∀ k, findClass db c = some k → now < k.startAt →
        occupancy db c < k.maxParticipants →
        (∃ a, findApp db u c = some a) →
        applyToClass db now u c = (db, .error .alreadyApplied)) ∧
    (∀ k, findClass db c = some k → now < k.startAt →
        occupancy db c < k.maxParticipants → findApp db u c = none →
        applyToClass db now u c =
          ({ db with apps := db.apps ++ [⟨u, c, now⟩] }, .ok ⟨u, c, now⟩)) := by
  refine ⟨?_, ?_, ?_, ?_, ?_⟩
  · intro h
    simp [applyToClass, h]
  · intro k hk hst
    simp [applyToClass, hk, hst]
  · intro k hk hst hcap
    have hnot : ¬ k.startAt ≤ now := not_le.mpr hst
    simp [applyToClass, createApplication, hk, hnot, hcap]
  · intro k hk hst hcap ⟨a, ha⟩
    have hnot : ¬ k.startAt ≤ now := not_le.mpr hst
    have hncap : ¬ k.maxParticipants ≤ occupancy db c := not_le.mpr hcap
    simp [applyToClass, createApplication, hk, hnot, hncap, ha]
  · intro k hk hst hcap hnone
    have hnot : ¬ k.startAt ≤ now := not_le.mpr hst
    have hncap : ¬ k.maxParticipants ≤ occupancy db c := not_le.mpr hcap
    simp [applyToClass, createApplication, hk, hnot, hncap, hnone]

/-- Embeds `applyToClass` never changes the class table, and on an error outcome
it leaves the store untouched. -/
theorem applyToClass_state (db : DB) (now : Int) (u c : Nat) :
    (applyToClass db now u c).1.classes = db.classes ∧
    (∀ e, (applyToClass db now u c).2 = .error e →
      (applyToClass db now u c).1 = db) := by
  unfold applyToClass createApplication
  cases hk : findClass db c with
  | none => simp
  | some k =>
    by_cases hst : k.startAt ≤ now
    · simp [hst]
    · by_cases hcap : k.maxParticipants ≤ occupancy db c
      · simp [hst, hcap]
      · cases ha : findApp db u c with
        | some a => simp [hst, hcap, ha]
        | none => simp [hst, hcap, ha]

/-- Full behavioural characterization of the embedded `cancelApplication`
pipeline. -/
theorem cancelApplication_spec (db : DB) (now : Int) (u c : Nat) :
    (findClass db c = none →
        cancelApplication db now u c = (db, .error .classNotFound)) ∧
    (∀ k, findClass db c = some k → k.startAt ≤ now →
        cancelApplication db now u c = (db, .error .classAlreadyStarted)) ∧
    (∀ k, findClass db c = some k → now < k.startAt →
        findApp db u c = none →
        cancelApplication db now u c = (db, .error .applicationNotFound)) ∧
    (∀ k a, findClass db c = some k → now < k.startAt →
        findApp db u c = some a →
        cancelApplication db now u c =
          ({ db with
              apps := db.apps.eraseP
                (fun x => x.userId == u && x.classId == c) }, .ok ())) := by
  refine ⟨?_, ?_, ?_, ?_⟩
  · intro h
    simp [cancelApplication, h]
  · intro k hk hst
    simp [cancelApplication, hk, hst]
  · intro k hk hst hnone
    have hnot : ¬ k.startAt ≤ now := not_le.mpr hst
    simp [cancelApplication, cancelApplicationSvc, hk, hnot, hnone]
  · intro k a hk hst ha
    have hnot : ¬ k.startAt ≤ now := not_le.mpr hst
    simp [cancelApplication, cancelApplicationSvc, hk, hnot, ha]

/-- Embeds `cancelApplication` never changes the class table, and on an error
outcome it leaves the store untouched. -/
theorem cancelApplication_state (db : DB) (now : Int) (u c : Nat) :
    (cancelApplication db now u c).1.classes = db.classes ∧
    (∀ e, (cancelApplication db now u c).2 = .error e →
      (cancelApplication db now u c).1 = db) := by
  unfold cancelApplication cancelApplicationSvc
  cases hk : findClass db c with
  | none => simp
  | some k =>
    by_cases hst : k.startAt ≤ now
    · simp [hst]
    · cases ha : findApp db u c with
      | some a => simp [hst, ha]
      | none => simp [hst, ha]

/-! ## Invariant preservation -/

theorem occupancy_eq_zero_of_fresh {db : DB} (hFk : FkInv db) {i : Nat}
    (hfresh : i ∉ db.classes.map (fun j => j.id)) : occupancy db i = 0 := by
  unfold occupancy
  rw [List.countP_eq_zero]
  intro a ha
  simp only [beq_iff_eq, decide_eq_true_eq]
  intro hac
  rcases hFk a ha with ⟨k, hk, hki⟩
  exact hfresh (List.mem_map.mpr ⟨k, hk, by rw [hki, hac]⟩)

theorem inv_createClassSvc {db : DB} {k : MClassRec} (hInv : Inv db)
    (hfresh : k.id ∉ db.classes.map (fun j => j.id)) :
    Inv (createClassSvc db k) := by
  obtain ⟨hIds, hFk, hPair, hCap⟩ := hInv
  refine ⟨?_, ?_, ?_, ?_⟩
  · unfold IdsNodup createClassSvc at *
    simp only [List.map_append, List.map_cons, List.map_nil]
    rw [List.nodup_append]
    exact ⟨hIds, List.nodup_singleton _, by
      intro x hx hx1
      simp only [List.mem_singleton] at hx1
      exact hfresh (hx1 ▸ hx)⟩
  · intro a ha
    rcases hFk a ha with ⟨j, hj, hji⟩
    exact ⟨j, List.mem_append_left _ hj, hji⟩
  · exact hPair
  · intro j hj
    rcases List.mem_append.mp hj with hj' | hj'
    · exact hCap j hj'
    · simp only [List.mem_singleton] at hj'
      subst hj'
      have : occupancy db j.id = 0 := occupancy_eq_zero_of_fresh hFk hfresh
      simpa [createClassSvc, occupancy] using
        Nat.le_trans (Nat.le_of_eq this) (Nat.zero_le _)

theorem mem_unique_of_ids_nodup {db : DB} (hIds : IdsNodup db)
    {j k : MClassRec} (hj : j ∈ db.classes) (hk : k ∈ db.classes)
    (hid : j.id = k.id) : j = k :=
  List.inj_on_of_nodup_map hIds hj hk hid

theorem inv_applyToClass {db : DB} (hInv : Inv db) (now : Int) (u c : Nat) :
    Inv (applyToClass db now u c).1 := by
  obtain ⟨hIds, hFk, hPair, hCap⟩ := hInv
  unfold applyToClass createApplication
  cases hk : findClass db c with
  | none => exact ⟨hIds, hFk, hPair, hCap⟩
  | some k =>
    by_cases hst : k.startAt ≤ now
    · simpa [hst] using (⟨hIds, hFk, hPair, hCap⟩ : Inv db)
    · by_cases hcap : k.maxParticipants ≤ occupancy db c
      · simpa [hst, hcap] using (⟨hIds, hFk, hPair, hCap⟩ : Inv db)
      · cases ha : findApp db u c with
        | some a => simpa [hst, hcap, ha] using (⟨hIds, hFk, hPair, hCap⟩ : Inv db)
        | none =>
          simp only [hst, hcap, ha, if_neg, ite_false]
          obtain ⟨hkmem, hkid⟩ := findClass_some hk
          refine ⟨hIds, ?_, ?_, ?_⟩
          · intro a hamem
            rcases List.mem_append.mp hamem with h' | h'
            · rcases hFk a h' with ⟨j, hj, hji⟩
              exact ⟨j, hj, hji⟩
            · simp only [List.mem_singleton] at h'
              subst h'
              exact ⟨k, hkmem, hkid⟩
          · show (db.apps ++ [(⟨u, c, now⟩ : AppRec)]).Pairwise _
            rw [List.pairwise_append]
            refine ⟨hPair, List.pairwise_singleton _ _, ?_⟩
            intro x hx y hy
            simp only [List.mem_singleton] at hy
            subst hy
            exact fun hcontra =>
              (findApp_none_iff.mp ha x hx) ⟨hcontra.1, hcontra.2⟩
          · intro j hj
            by_cases hjc : j.id = c
            · have hjk : j = k := mem_unique_of_ids_nodup hIds hj hkmem (hjc.trans hkid.symm)
              subst hjk
              rw [hjc]
              rw [occupancy_append_hit db c ⟨u, c, now⟩ rfl]
              omega
            · have : occupancy { db with apps := db.apps ++ [(⟨u, c, now⟩ : AppRec)] } j.id
                  = occupancy db j.id := by
                simp [occupancy, List.countP_append, List.countP_cons,
                  List.countP_nil, Ne.symm hjc]
              rw [this]
              exact hCap j hj

theorem inv_of_sublists {db db' : DB} (hInv : Inv db)
    (hc : db'.classes.Sublist db.classes) (ha : db'.apps.Sublist db.apps)
    (hFk' : FkInv db') : Inv db' := by
  obtain ⟨hIds, _, hPair, hCap⟩ := hInv
  refine ⟨?_, hFk', ?_, ?_⟩
  · exact List.Nodup.sublist (hc.map (fun j => j.id)) hIds
  · exact hPair.sublist ha
  · intro j hj
    have h1 : occupancy db' j.id ≤ occupancy db j.id :=
      ha.countP_le _
    exact Nat.le_trans h1 (hCap j (hc.subset hj))

theorem inv_cancelApplication {db : DB} (hInv : Inv db) (now : Int)
    (u c : Nat) : Inv (cancelApplication db now u c).1 := by
  unfold cancelApplication cancelApplicationSvc
  cases hk : findClass db c with
  | none => exact hInv
  | some k =>
    by_cases hst : k.startAt ≤ now
    · simpa [hst] using hInv
    · cases ha : findApp db u c with
      | some a =>
        simp only [hst, ha, if_neg, ite_false]
        refine inv_of_sublists hInv (List.Sublist.refl _)
          (List.eraseP_sublist _) ?_
        intro x hx
        exact hInv.2.1 x ((List.eraseP_sublist _).subset hx)
      | none => simpa [hst, ha] using hInv

theorem inv_deleteClass {db : DB} (hInv : Inv db) (c : Nat) :
    Inv (deleteClass db c).1 := by
  unfold deleteClass
  cases hk : findClass db c with
  | none => exact hInv
  | some k =>
    simp only
    refine inv_of_sublists hInv (List.eraseP_sublist _)
      (List.filter_sublist _) ?_
    intro a ha
    have hmem := (List.filter_sublist _).subset ha
    have hne : ¬(a.classId = c) := by
      have := List.of_mem_filter ha
      simpa using this
    rcases hInv.2.1 a hmem with ⟨j, hj, hji⟩
    refine ⟨j, ?_, hji⟩
    rw [List.mem_eraseP_of_neg]
    · exact hj
    · simp [hji, hne]

/-- Every reachable store satisfies all four structural invariants. -/
theorem reachable_inv {db : DB} (h : Reachable db) : Inv db := by
  induction h with
  | empty =>
    refine ⟨List.nodup_nil, ?_, List.Pairwise.nil, ?_⟩
    · intro a ha
      simp at ha
    · intro j hj
      simp at hj
  | create k _ hfresh ih => exact inv_createClassSvc ih hfresh
  | apply now u c _ ih => exact inv_applyToClass ih now u c
  | cancel now u c _ ih => exact inv_cancelApplication ih now u c
  | deleteCls c _ ih => exact inv_deleteClass ih c

/-! ## Seat accounting lemmas -/

theorem findApp_none_of_sublist {db db' : DB} {u c : Nat}
    (hsub : db'.apps.Sublist db.apps) (h : findApp db u c = none) :
    findApp db' u c = none := by
  rw [findApp_none_iff] at h ⊢
  exact fun a ha => h a (hsub.subset ha)

theorem occupancy_cancel (db : DB) (u c : Nat) {a : AppRec}
    (ha : findApp db u c = some a) :
    occupancy { db with
      apps := db.apps.eraseP (fun x => x.userId == u && x.classId == c) } c
      + 1 = occupancy db c := by
  obtain ⟨hmem, hu, hc⟩ := findApp_some ha
  have hpa : (fun x : AppRec => x.userId == u && x.classId == c) a = true := by
    simp [hu, hc]
  obtain ⟨b, l₁, l₂, hnl, hpb, hl, he⟩ :=
    List.exists_of_eraseP (p := fun x : AppRec => x.userId == u && x.classId == c)
      hmem hpa
  have hbq : b.classId = c := by
    simp only [Bool.and_eq_true, beq_iff_eq] at hpb
    exact hpb.2
  unfold occupancy
  simp only
  rw [he, hl]
  simp [List.countP_append, List.countP_cons, hbq]
  omega

/-! ## Claim theorems -/

/-- C1: Apply inserts an application only when the occupancy it observes in
the transaction is strictly below the class capacity, and every store
reachable via class creation, Apply, Cancel and class deletion satisfies
`occupancy(C) ≤ capacity(C)` for every class C. -/
theorem C1_capacity_invariant :
    (∀ db now u c a, (applyToClass db now u c).2 = .ok a →
      ∃ k, findClass db c = some k ∧ occupancy db c < k.maxParticipants) ∧
    (∀ db, Reachable db →
      ∀ k ∈ db.classes, occupancy db k.id ≤ k.maxParticipants) := by
  constructor
  · intro db now u c a hok
    unfold applyToClass createApplication at hok
    cases hk : findClass db c with
    | none => rw [hk] at hok; cases hok
    | some k =>
      rw [hk] at hok
      by_cases hst : k.startAt ≤ now
      · simp [hst] at hok
      · by_cases hcap : k.maxParticipants ≤ occupancy db c
        · simp [hst, hcap] at hok
        · exact ⟨k, rfl, not_le.mp hcap⟩
  · intro db h
    exact (reachable_inv h).2.2.2

theorem C1_capacity_invariant_witness :
    (∀ k ∈ ((applyToClass (createClassSvc ⟨[], []⟩ ⟨0, 1, 10, 20, 99⟩)
        0 5 0).1).classes,
      occupancy
        (applyToClass (createClassSvc ⟨[], []⟩ ⟨0, 1, 10, 20, 99⟩) 0 5 0).1
        k.id ≤ k.maxParticipants) :=
  C1_capacity_invariant.2 _
    (Reachable.apply 0 5 0
      (Reachable.create ⟨0, 1, 10, 20, 99⟩ Reachable.empty (by simp)))

/-- C9: class listings are ordered by application timestamp ascending,
user histories by application timestamp descending, both as skip/take
paginated reads of the sorted filtered table. -/
theorem C9_listing_order :
    ∀ db c u page limit,
      (∃ full : List AppRec,
        full.Perm (db.apps.filter (fun a => a.classId == c)) ∧
        full.Sorted byCreatedAtAsc ∧
        (getClassApplications db c page limit).1 =
          (full.drop ((page - 1) * limit)).take limit) ∧
      (∃ full : List AppRec,
        full.Perm (db.apps.filter (fun a => a.userId == u)) ∧
        full.Sorted byCreatedAtDesc ∧
        (getUserApplications db u page limit).1 =
          (full.drop ((page - 1) * limit)).take limit) ∧
      (getClassApplications db c page limit).1.Sorted byCreatedAtAsc ∧
      (getUserApplications db u page limit).1.Sorted byCreatedAtDesc ∧
      (getClassApplications db c page limit).2.1 =
        (db.apps.filter (fun a => a.classId == c)).length ∧
      (getUserApplications db u page limit).2.1 =
        (db.apps.filter (fun a => a.userId == u)).length := by
  intro db c u page limit
  refine ⟨⟨_, List.perm_insertionSort _ _, List.sorted_insertionSort _ _, rfl⟩,
    ⟨_, List.perm_insertionSort _ _, List.sorted_insertionSort _ _, rfl⟩,
    ?_, ?_, rfl, rfl⟩
  · exact List.Pairwise.sublist
      ((List.take_sublist _ _).trans (List.drop_sublist _ _))
      (List.sorted_insertionSort _ _)
  · exact List.Pairwise.sublist
      ((List.take_sublist _ _).trans (List.drop_sublist _ _))
      (List.sorted_insertionSort _ _)

/-- C10: all three stats readers clamp availableSpots at zero
(`Math.max(0, maxParticipants - current)`) and report isFullyBooked exactly
when `maxParticipants - current ≤ 0`, for every store, including stores
where the count equals or exceeds the capacity. -/
theorem C10_stats_never_negative :
    (∀ db c s, getApplicationStats db c = some s →
      ∃ k, findClass db c = some k ∧ s.current = occupancy db c ∧
        s.maxParticipants = k.maxParticipants ∧
        s.availableSpots =
          max 0 ((s.maxParticipants : Int) - (s.current : Int)) ∧
        0 ≤ s.availableSpots ∧
        (s.isFullyBooked = true ↔
          (s.maxParticipants : Int) - (s.current : Int) ≤ 0)) ∧
    (∀ db c s, getClassStats db c = some s →
      ∃ k, findClass db c = some k ∧ s.current = occupancy db c ∧
        s.maxParticipants = k.maxParticipants ∧
        s.availableSpots =
          max 0 ((s.maxParticipants : Int) - (s.current : Int)) ∧
        0 ≤ s.availableSpots ∧
        (s.isFullyBooked = true ↔
          (s.maxParticipants : Int) - (s.current : Int) ≤ 0)) ∧
    (∀ maxP cur, (classListEntryStats maxP cur).1 =
        max 0 ((maxP : Int) - (cur : Int)) ∧
      0 ≤ (classListEntryStats maxP cur).1 ∧
      ((classListEntryStats maxP cur).2 = true ↔
        (maxP : Int) - (cur : Int) ≤ 0)) := by
  refine ⟨?_, ?_, ?_⟩
  · intro db c s h
    unfold getApplicationStats at h
    cases hk : findClass db c with
    | none => rw [hk] at h; cases h
    | some k =>
      rw [hk] at h
      simp only [Option.some.injEq] at h
      subst h
      refine ⟨k, rfl, rfl, rfl, rfl, le_max_left 0 _, ?_⟩
      simp
  · intro db c s h
    unfold getClassStats at h
    cases hk : findClass db c with
    | none => rw [hk] at h; cases h
    | some k =>
      rw [hk] at h
      simp only [Option.some.injEq] at h
      subst h
      refine ⟨k, rfl, rfl, rfl, rfl, le_max_left 0 _, ?_⟩
      simp
  · intro maxP cur
    refine ⟨rfl, le_max_left 0 _, ?_⟩
    simp only [classListEntryStats, decide_eq_true_eq]
    omega

theorem C10_stats_never_negative_witness :
    ∃ k, findClass ⟨[⟨0, 2, 10, 20, 9⟩], [⟨4, 0, 1⟩, ⟨5, 0, 2⟩, ⟨6, 0, 3⟩]⟩ 0
        = some k ∧
      (⟨3, 2, 0, true⟩ : ClassStats).current =
        occupancy ⟨[⟨0, 2, 10, 20, 9⟩], [⟨4, 0, 1⟩, ⟨5, 0, 2⟩, ⟨6, 0, 3⟩]⟩ 0 ∧
      (⟨3, 2, 0, true⟩ : ClassStats).maxParticipants = k.maxParticipants ∧
      (⟨3, 2, 0, true⟩ : ClassStats).availableSpots =
        max 0 (((⟨3, 2, 0, true⟩ : ClassStats).maxParticipants : Int) -
          ((⟨3, 2, 0, true⟩ : ClassStats).current : Int)) ∧
      0 ≤ (⟨3, 2, 0, true⟩ : ClassStats).availableSpots ∧
      ((⟨3, 2, 0, true⟩ : ClassStats).isFullyBooked = true ↔
        ((⟨3, 2, 0, true⟩ : ClassStats).maxParticipants : Int) -
          ((⟨3, 2, 0, true⟩ : ClassStats).current : Int) ≤ 0) :=
  C10_stats_never_negative.1
    ⟨[⟨0, 2, 10, 20, 9⟩], [⟨4, 0, 1⟩, ⟨5, 0, 2⟩, ⟨6, 0, 3⟩]⟩ 0 ⟨3, 2, 0, true⟩
    (by decide)

/-- C3 counterexample: in a store whose only class has capacity 1 and
already holds the applicant's own record, a repeat Apply fails with
CapacityExceeded — not AlreadyApplied as the claim states — because the
transaction checks capacity before the duplicate check. -/
theorem C3_counterexample :
    findApp ⟨[⟨2, 1, 10, 20, 9⟩], [⟨7, 2, 0⟩]⟩ 7 2 ≠ none ∧
    (applyToClass ⟨[⟨2, 1, 10, 20, 9⟩], [⟨7, 2, 0⟩]⟩ 5 7 2).2 =
      .error .capacityExceeded ∧
    (applyToClass ⟨[⟨2, 1, 10, 20, 9⟩], [⟨7, 2, 0⟩]⟩ 5 7 2).2 ≠
      .error .alreadyApplied := by
  decide

/-- C3 (amended): every reachable store has at most one application per
(userId, classId) pair; an Apply while such a record exists and the class
is not yet full fails with AlreadyApplied (when the class is full the
capacity check fires first, giving CapacityExceeded); and a storage-layer
unique-constraint violation (Prisma P2002) escaping the transaction is
remapped to the AlreadyApplied error (HTTP 409 CONFLICT), not surfaced as
a storage exception. -/
theorem C3_unique_application :
    (∀ db, Reachable db → PairUnique db) ∧
    (∀ db now u c k, findClass db c = some k → now < k.startAt →
      occupancy db c < k.maxParticipants → findApp db u c ≠ none →
      (applyToClass db now u c).2 = .error .alreadyApplied) ∧
    (∀ db now u c k, findClass db c = some k → now < k.startAt →
      k.maxParticipants ≤ occupancy db c →
      (applyToClass db now u c).2 = .error .capacityExceeded) ∧
    (createApplicationCatch (.prismaKnown "P2002") = .alreadyApplied ∧
      applyToClassCatch (createApplicationCatch (.prismaKnown "P2002")) =
        ⟨409, "CONFLICT"⟩) := by
  refine ⟨?_, ?_, ?_, by decide, by decide⟩
  · intro db h
    exact (reachable_inv h).2.2.1
  · intro db now u c k hk hst hcap happ
    rcases Option.ne_none_iff_exists'.mp happ with ⟨a, ha⟩
    rw [(applyToClass_spec db now u c).2.2.2.1 k hk hst hcap ⟨a, ha⟩]
  · intro db now u c k hk hst hcap
    rw [(applyToClass_spec db now u c).2.2.1 k hk hst hcap]

theorem C3_unique_application_witness :
    (applyToClass ⟨[⟨2, 3, 10, 20, 9⟩], [⟨7, 2, 0⟩]⟩ 5 7 2).2 =
      .error .alreadyApplied :=
  C3_unique_application.2.1 ⟨[⟨2, 3, 10, 20, 9⟩], [⟨7, 2, 0⟩]⟩ 5 7 2
    ⟨2, 3, 10, 20, 9⟩ (by decide) (by decide) (by decide) (by decide)

/-- C4 counterexample: a caller who has already applied to a class that is
also full receives CapacityExceeded, not AlreadyApplied as the claim
states, because the transaction checks capacity before duplicates. -/
theorem C4_counterexample :
    findApp ⟨[⟨0, 1, 100, 200, 9⟩], [⟨5, 0, 1⟩]⟩ 5 0 ≠ none ∧
    (applyToClass ⟨[⟨0, 1, 100, 200, 9⟩], [⟨5, 0, 1⟩]⟩ 0 5 0).2 =
      .error .capacityExceeded := by
  decide

/-- C4 (amended): Apply's checks run in this order — in the controller,
before the transaction: (1) class exists, else ClassNotFound; (2) class has
not started (now < startAt), else ClassAlreadyStarted; then inside the
service's atomic transaction: (3) occupancy < capacity, else
CapacityExceeded; (4) no existing record for (userId, classId), else
AlreadyApplied.  In particular a caller who has already applied to a full
class receives CapacityExceeded, not AlreadyApplied. -/
theorem C4_check_order :
    ∀ db now u c,
      ((applyToClass db now u c).2 = .error .classNotFound ↔
        findClass db c = none) ∧
      (∀ k, findClass db c = some k →
        ((applyToClass db now u c).2 = .error .classAlreadyStarted ↔
          k.startAt ≤ now)) ∧
      (∀ k, findClass db c = some k → now < k.startAt →
        ((applyToClass db now u c).2 = .error .capacityExceeded ↔
          k.maxParticipants ≤ occupancy db c)) ∧
      (∀ k, findClass db c = some k → now < k.startAt →
        occupancy db c < k.maxParticipants →
        ((applyToClass db now u c).2 = .error .alreadyApplied ↔
          findApp db u c ≠ none)) ∧
      (∀ k, findClass db c = some k → now < k.startAt →
        k.maxParticipants ≤ occupancy db c → findApp db u c ≠ none →
        (applyToClass db now u c).2 = .error .capacityExceeded) := by
  intro db now u c
  unfold applyToClass createApplication
  cases hk : findClass db c with
  | none => simp
  | some k =>
    by_cases hst : k.startAt ≤ now
    · simp [hst]
    · by_cases hcap : k.maxParticipants ≤ occupancy db c
      · simp [hst, hcap, not_le.mp hst]
      · cases ha : findApp db u c with
        | some a => simp [hst, hcap, ha, not_le.mp hst, not_le.mp hcap]
        | none => simp [hst, hcap, ha, not_le.mp hst, not_le.mp hcap]

theorem C4_check_order_witness :
    (applyToClass ⟨[⟨0, 2, 100, 200, 9⟩], [⟨5, 0, 1⟩]⟩ 0 5 0).2 =
      .error .alreadyApplied :=
  ((C4_check_order ⟨[⟨0, 2, 100, 200, 9⟩], [⟨5, 0, 1⟩]⟩ 0 5 0).2.2.2.1
    ⟨0, 2, 100, 200, 9⟩ (by decide) (by decide) (by decide)).mpr (by decide)

/-- C5 counterexample: a transient storage error — Prisma P2034,
'transaction failed due to a write conflict or deadlock' — is rethrown
unchanged by the service's catch block (no retry loop exists anywhere in
`createApplication`) and surfaced by the controller as the generic 500
INTERNAL_SERVER_ERROR, not as any distinct TransientConflict/Busy error. -/
theorem C5_counterexample :
    createApplicationCatch (.prismaKnown "P2034") = .prismaKnown "P2034" ∧
    applyToClassCatch (createApplicationCatch (.prismaKnown "P2034")) =
      ⟨500, "INTERNAL_SERVER_ERROR"⟩ := by
  decide

/-- C5 (amended): the core performs no internal retry — the service runs
its transaction once and its catch block remaps only P2002 (to
AlreadyApplied) and P2003 (to an invalid-reference validation error); every
other storage error, including transient lock/serialization conflicts, is
rethrown unchanged and surfaced by the controller as the generic 500
INTERNAL_SERVER_ERROR.  No TransientConflict/Busy member exists in the
error taxonomy. -/
theorem C5_no_transient_retry :
    ∀ code : String, code ≠ "P2002" → code ≠ "P2003" →
      createApplicationCatch (.prismaKnown code) = .prismaKnown code ∧
      applyToClassCatch (createApplicationCatch (.prismaKnown code)) =
        ⟨500, "INTERNAL_SERVER_ERROR"⟩ := by
  intro code h2 h3
  unfold createApplicationCatch applyToClassCatch
  simp [h2, h3]

theorem C5_no_transient_retry_witness :
    createApplicationCatch (.prismaKnown "P2024") = .prismaKnown "P2024" ∧
    applyToClassCatch (createApplicationCatch (.prismaKnown "P2024")) =
      ⟨500, "INTERNAL_SERVER_ERROR"⟩ :=
  C5_no_transient_retry "P2024" (by decide) (by decide)

/-- C6 counterexample: the creation route accepts a class whose duration
is 10 minutes (startAt 1000 ms, endAt 601000 ms — under the 30-minute
minimum), and inserts the record, because the duration bounds live only in
the `mclassValidation.create` schema, which is attached to no route; the
schema itself would have rejected the same dates. -/
theorem C6_counterexample :
    (createClass ⟨[], []⟩ 0 1 2
        ⟨"Valid Title", "A valid class description", 10, 1000, 601000⟩).2 =
      .created ⟨1, 10, 1000, 601000, 2⟩ ∧
    (createClass ⟨[], []⟩ 0 1 2
        ⟨"Valid Title", "A valid class description", 10, 1000, 601000⟩).1.classes =
      [⟨1, 10, 1000, 601000, 2⟩] ∧
    (601000 : Int) - 1000 < 30 * 60 * 1000 ∧
    "Class duration must be at least 30 minutes" ∈
      mclassCreateDateErrors 0 1000 601000 := by
  refine ⟨by decide, by decide, by decide, by decide⟩

/-- C6 (amended): the creation route runs only the controller's checks —
fields present and bounded, startAt strictly in the future, startAt
strictly before endAt (whence both timestamps are in the future); a
violation of those is rejected with a validation error and no ClassRecord
is created.  The 30-minute minimum / 8-hour maximum duration bounds exist
only in the unattached `mclassValidation.create` schema, so the creation
path does not enforce them. -/
theorem C6_creation_validation :
    ∀ (db : DB) (now : Int) (freshId hostId : Nat) (r : CreateClassReq),
      (¬(r.title = "" ∨ r.title.length < 3 ∨ r.title.length > 100) →
        ¬(r.description = "" ∨ r.description.length > 500) →
        1 ≤ r.maxParticipants → now < r.startAt → r.startAt < r.endAt →
        createClass db now freshId hostId r =
          (createClassSvc db
            ⟨freshId, r.maxParticipants.toNat, r.startAt, r.endAt, hostId⟩,
           .created
            ⟨freshId, r.maxParticipants.toNat, r.startAt, r.endAt, hostId⟩)) ∧
      (r.startAt ≤ now ∨ r.endAt ≤ r.startAt →
        ∃ msg, createClass db now freshId hostId r =
          (db, .validationError msg)) ∧
      (r.endAt - r.startAt < 30 * 60 * 1000 →
        "Class duration must be at least 30 minutes" ∈
          mclassCreateDateErrors now r.startAt r.endAt) ∧
      (8 * 60 * 60 * 1000 < r.endAt - r.startAt →
        "Class duration must not exceed 8 hours" ∈
          mclassCreateDateErrors now r.startAt r.endAt) := by
  intro db now freshId hostId r
  refine ⟨?_, ?_, ?_, ?_⟩
  · intro ht hd hm hs he
    unfold createClass
    rw [if_neg ht, if_neg hd, if_neg (by omega), if_neg (by omega),
      if_neg (by omega)]
  · intro hbad
    unfold createClass
    by_cases h1 : r.title = "" ∨ r.title.length < 3 ∨ r.title.length > 100
    · exact ⟨_, by rw [if_pos h1]⟩
    · rw [if_neg h1]
      by_cases h2 : r.description = "" ∨ r.description.length > 500
      · exact ⟨_, by rw [if_pos h2]⟩
      · rw [if_neg h2]
        by_cases h3 : r.maxParticipants < 1
        · exact ⟨_, by rw [if_pos h3]⟩
        · rw [if_neg h3]
          by_cases h4 : r.startAt ≤ now
          · exact ⟨_, by rw [if_pos h4]⟩
          · rw [if_neg h4]
            rcases hbad with hb | hb
            · exact absurd hb h4
            · exact ⟨_, by rw [if_pos hb]⟩
  · intro hdur
    have hdur' : r.endAt - r.startAt < 1800000 := by omega
    simp [mclassCreateDateErrors, hdur']
  · intro hdur
    have hdur' : (28800000 : Int) < r.endAt - r.startAt := by omega
    simp [mclassCreateDateErrors, hdur']

theorem C6_creation_validation_witness :
    createClass ⟨[], []⟩ 0 1 2
        ⟨"Algebra Basics", "Introductory algebra course", 30, 1000, 3601000⟩ =
      (createClassSvc ⟨[], []⟩ ⟨1, 30, 1000, 3601000, 2⟩,
       .created ⟨1, 30, 1000, 3601000, 2⟩) :=
  (C6_creation_validation ⟨[], []⟩ 0 1 2
      ⟨"Algebra Basics", "Introductory algebra course", 30, 1000, 3601000⟩).1
    (by decide) (by decide) (by decide) (by decide) (by decide)

/-- C7: on a full class that has not started, a Cancel by an admitted user
followed by an Apply by a user with no record on that class succeeds, and
occupancy returns to the capacity value. -/
theorem C7_cancel_frees_seat :
    ∀ db now u1 u2 c k, findClass db c = some k → now < k.startAt →
      findApp db u1 c ≠ none → findApp db u2 c = none →
      occupancy db c = k.maxParticipants →
      (cancelApplication db now u1 c).2 = .ok () ∧
      (applyToClass (cancelApplication db now u1 c).1 now u2 c).2 =
        .ok ⟨u2, c, now⟩ ∧
      occupancy (applyToClass (cancelApplication db now u1 c).1 now u2 c).1 c
        = k.maxParticipants := by
  intro db now u1 u2 c k hk hst h1 h2 hfull
  rcases Option.ne_none_iff_exists'.mp h1 with ⟨a, ha⟩
  have hcancel := (cancelApplication_spec db now u1 c).2.2.2 k a hk hst ha
  set db1 : DB :=
    { db with
      apps := db.apps.eraseP (fun x => x.userId == u1 && x.classId == c) }
    with hdb1
  have hfind1 : findClass db1 c = some k := hk
  have hocc1 : occupancy db1 c + 1 = occupancy db c :=
    occupancy_cancel db u1 c ha
  have hsub : db1.apps.Sublist db.apps := List.eraseP_sublist _
  have h2' : findApp db1 u2 c = none := findApp_none_of_sublist hsub h2
  have hcap1 : occupancy db1 c < k.maxParticipants := by omega
  have happly := (applyToClass_spec db1 now u2 c).2.2.2.2 k hfind1 hst hcap1 h2'
  rw [hcancel]
  refine ⟨rfl, ?_, ?_⟩
  · simp only
    rw [happly]
  · simp only
    rw [happly]
    simp only
    rw [occupancy_append_hit db1 c ⟨u2, c, now⟩ rfl]
    omega

theorem C7_cancel_frees_seat_witness :
    (cancelApplication ⟨[⟨0, 1, 100, 200, 9⟩], [⟨1, 0, 5⟩]⟩ 0 1 0).2 =
      .ok () ∧
    (applyToClass (cancelApplication ⟨[⟨0, 1, 100, 200, 9⟩], [⟨1, 0, 5⟩]⟩
        0 1 0).1 0 2 0).2 = .ok ⟨2, 0, 0⟩ ∧
    occupancy (applyToClass
        (cancelApplication ⟨[⟨0, 1, 100, 200, 9⟩], [⟨1, 0, 5⟩]⟩ 0 1 0).1
        0 2 0).1 0 = (⟨0, 1, 100, 200, 9⟩ : MClassRec).maxParticipants :=
  C7_cancel_frees_seat ⟨[⟨0, 1, 100, 200, 9⟩], [⟨1, 0, 5⟩]⟩ 0 1 2 0
    ⟨0, 1, 100, 200, 9⟩ (by decide) (by decide) (by decide) (by decide)
    (by decide)

/-- C8: Cancel requires the class to exist (else ClassNotFound) and not to
have started (else ClassAlreadyStarted); given those, it fails with
ApplicationNotFound exactly when no (userId, classId) record exists; on
success it removes precisely that one record and nothing else; on any
failure the store is unchanged. -/
theorem C8_cancel_preconditions :
    ∀ db now u c,
      (findClass db c = none →
        cancelApplication db now u c = (db, .error .classNotFound)) ∧
      (∀ k, findClass db c = some k → k.startAt ≤ now →
        cancelApplication db now u c = (db, .error .classAlreadyStarted)) ∧
      (∀ k, findClass db c = some k → now < k.startAt →
        ((cancelApplication db now u c).2 = .error .applicationNotFound ↔
          findApp db u c = none)) ∧
      (∀ k, findClass db c = some k → now < k.startAt →
        findApp db u c ≠ none →
        (cancelApplication db now u c).2 = .ok () ∧
        (cancelApplication db now u c).1.classes = db.classes ∧
        ∃ a l₁ l₂, a.userId = u ∧ a.classId = c ∧
          (∀ b ∈ l₁, ¬(b.userId = u ∧ b.classId = c)) ∧
          db.apps = l₁ ++ a :: l₂ ∧
          (cancelApplication db now u c).1.apps = l₁ ++ l₂) ∧
      (∀ e, (cancelApplication db now u c).2 = .error e →
        (cancelApplication db now u c).1 = db) := by
  intro db now u c
  refine ⟨(cancelApplication_spec db now u c).1,
    (cancelApplication_spec db now u c).2.1, ?_, ?_,
    (cancelApplication_state db now u c).2⟩
  · intro k hk hst
    cases ha : findApp db u c with
    | none =>
      simp [(cancelApplication_spec db now u c).2.2.1 k hk hst ha]
    | some a =>
      rw [(cancelApplication_spec db now u c).2.2.2 k a hk hst ha]
      simp
  · intro k hk hst happ
    rcases Option.ne_none_iff_exists'.mp happ with ⟨a, ha⟩
    rw [(cancelApplication_spec db now u c).2.2.2 k a hk hst ha]
    obtain ⟨hmem, hu, hc⟩ := findApp_some ha
    have hpa : (fun x : AppRec => x.userId == u && x.classId == c) a = true := by
      simp [hu, hc]
    obtain ⟨b, l₁, l₂, hnl, hpb, hl, he⟩ :=
    List.exists_of_eraseP (p := fun x : AppRec => x.userId == u && x.classId == c)
      hmem hpa
    simp only [Bool.and_eq_true, beq_iff_eq] at hpb
    refine ⟨rfl, rfl, b, l₁, l₂, hpb.1, hpb.2, ?_, hl, he⟩
    intro x hx hcontra
    have := hnl x hx
    simp only [Bool.and_eq_true, beq_iff_eq] at this
    exact this ⟨hcontra.1, hcontra.2⟩

theorem countP_not_eq {α : Type} (p : α → Bool) (l : List α) :
    l.countP (fun a => !(p a)) = l.length - l.countP p := by
  induction l with
  | nil => rfl
  | cons x xs ih =>
    have hle : xs.countP p ≤ xs.length := List.countP_le_length p
    by_cases h : p x = true
    all_goals simp [List.countP_cons, h, ih]
    all_goals omega

/-- Running Apply once per user, sequentially, from any store in which the
class exists and has not started, every user in the list is fresh, and the
occupancy is within capacity: the number of successes is exactly
`min (capacity - occupancy) (number of users)`, every failure is
CapacityExceeded, and the final occupancy is
`min capacity (occupancy + number of users)`. -/
theorem applyAll_run (now : Int) (c : Nat) (k : MClassRec) (us : List Nat) :
    ∀ db : DB, findClass db c = some k → now < k.startAt →
      us.Nodup → (∀ u ∈ us, findApp db u c = none) →
      occupancy db c ≤ k.maxParticipants →
      (applyAll now c us db).2.length = us.length ∧
      (applyAll now c us db).2.countP applyOk =
        min (k.maxParticipants - occupancy db c) us.length ∧
      (∀ x ∈ (applyAll now c us db).2, applyOk x = false →
        x = .error .capacityExceeded) ∧
      occupancy (applyAll now c us db).1 c =
        min k.maxParticipants (occupancy db c + us.length) ∧
      (applyAll now c us db).1.classes = db.classes := by
  induction us with
  | nil =>
    intro db hk hst hnd hfresh hocc
    refine ⟨rfl, ?_, ?_, ?_, rfl⟩
    · show (0 : Nat) = min (k.maxParticipants - occupancy db c) 0
      omega
    · intro x hx
      exact absurd hx (List.not_mem_nil x)
    · show occupancy db c = min k.maxParticipants (occupancy db c + 0)
      omega
  | cons u rest ih =>
    intro db hk hst hnd hfresh hocc
    by_cases hcap : occupancy db c < k.maxParticipants
    · have hnone : findApp db u c = none := hfresh u (List.mem_cons_self u rest)
      have happ := (applyToClass_spec db now u c).2.2.2.2 k hk hst hcap hnone
      set db1 : DB := { db with apps := db.apps ++ [⟨u, c, now⟩] } with hdb1
      have hk1 : findClass db1 c = some k := hk
      have hocc1 : occupancy db1 c = occupancy db c + 1 :=
        occupancy_append_hit db c ⟨u, c, now⟩ rfl
      have hfresh1 : ∀ v ∈ rest, findApp db1 v c = none := by
        intro v hv
        have hvne : v ≠ u := by
          intro hvu
          subst hvu
          exact (List.nodup_cons.mp hnd).1 hv
        have hvold : findApp db v c = none :=
          hfresh v (List.mem_cons_of_mem u hv)
        rw [findApp_none_iff] at hvold ⊢
        intro a hamem
        rcases List.mem_append.mp hamem with h' | h'
        · exact hvold a h'
        · simp only [List.mem_singleton] at h'
          subst h'
          intro hcontra
          exact hvne hcontra.1.symm
      have hocc1le : occupancy db1 c ≤ k.maxParticipants := by omega
      have hrest := ih db1 hk1 hst (List.nodup_cons.mp hnd).2 hfresh1 hocc1le
      have hstep : applyAll now c (u :: rest) db =
          ((applyAll now c rest db1).1,
            Except.ok ⟨u, c, now⟩ :: (applyAll now c rest db1).2) := by
        simp only [applyAll]
        rw [happ]
      rw [hstep]
      obtain ⟨hlen, hcnt, hfail, hoccf, hcls⟩ := hrest
      rw [hocc1] at hcnt hoccf
      refine ⟨by simp [hlen], ?_, ?_, ?_, hcls⟩
      · simp [List.countP_cons, applyOk, hcnt, List.length_cons]
        all_goals omega
      · intro x hx hxf
        rcases List.mem_cons.mp hx with h' | h'
        · subst h'
          simp [applyOk] at hxf
        · exact hfail x h' hxf
      · rw [hoccf]
        simp only [List.length_cons]
        omega
    · have hcap' : k.maxParticipants ≤ occupancy db c := not_lt.mp hcap
      have hfull := (applyToClass_spec db now u c).2.2.1 k hk hst hcap'
      have hstep : applyAll now c (u :: rest) db =
          ((applyAll now c rest db).1,
            Except.error .capacityExceeded :: (applyAll now c rest db).2) := by
        simp only [applyAll]
        rw [hfull]
      rw [hstep]
      have hrest := ih db hk hst (List.nodup_cons.mp hnd).2
        (fun v hv => hfresh v (List.mem_cons_of_mem u hv)) hocc
      obtain ⟨hlen, hcnt, hfail, hoccf, hcls⟩ := hrest
      refine ⟨by simp [hlen], ?_, ?_, ?_, hcls⟩
      · simp [List.countP_cons, applyOk, hcnt, List.length_cons]
        all_goals omega
      · intro x hx hxf
        rcases List.mem_cons.mp hx with h' | h'
        · subst h'
          rfl
        · exact hfail x h' hxf
      · rw [hoccf]
        simp only [List.length_cons]
        omega

/-- C2 counterexample: the claim quantifies over any class that exists and
has not started, with K distinct users none of whom previously applied —
it does not require the class to start empty.  With capacity N = 1 but one
pre-existing application by a third user, a single fresh Apply (K = 1 ≥ N)
yields 0 successes, not exactly N = 1. -/
theorem C2_counterexample :
    findClass ⟨[⟨0, 1, 100, 200, 3⟩], [⟨9, 0, 0⟩]⟩ 0 =
      some ⟨0, 1, 100, 200, 3⟩ ∧
    (0 : Int) < 100 ∧
    findApp ⟨[⟨0, 1, 100, 200, 3⟩], [⟨9, 0, 0⟩]⟩ 5 0 = none ∧
    (⟨0, 1, 100, 200, 3⟩ : MClassRec).maxParticipants = 1 ∧
    (applyAll 0 0 [5] ⟨[⟨0, 1, 100, 200, 3⟩], [⟨9, 0, 0⟩]⟩).2.countP applyOk
      = 0 := by
  decide

/-- C2 (amended): for any class with capacity N that exists, has not
started, and initially has no applications, firing K ≥ N Apply calls from
K distinct users yields exactly N successes and K − N failures, every
failure is CapacityExceeded, and the final occupancy is N. -/
theorem C2_concurrent_admission :
    ∀ db now c k (us : List Nat),
      findClass db c = some k → now < k.startAt →
      occupancy db c = 0 → us.Nodup →
      k.maxParticipants ≤ us.length →
      (applyAll now c us db).2.length = us.length ∧
      (applyAll now c us db).2.countP applyOk = k.maxParticipants ∧
      (applyAll now c us db).2.countP (fun x => !(applyOk x)) =
        us.length - k.maxParticipants ∧
      (∀ x ∈ (applyAll now c us db).2, applyOk x = false →
        x = .error .capacityExceeded) ∧
      occupancy (applyAll now c us db).1 c = k.maxParticipants := by
  intro db now c k us hk hst hocc0 hnd hKN
  have hfresh : ∀ u ∈ us, findApp db u c = none := by
    intro u hu
    rw [findApp_none_iff]
    intro a ha hcontra
    have h1 : 0 < occupancy db c := by
      unfold occupancy
      rw [List.countP_pos_iff]
      exact ⟨a, ha, by simp [hcontra.2]⟩
    omega
  obtain ⟨hlen, hcnt, hfail, hoccf, _⟩ :=
    applyAll_run now c k us db hk hst hnd hfresh (by omega)
  rw [hocc0] at hcnt hoccf
  have hsucc : (applyAll now c us db).2.countP applyOk = k.maxParticipants := by
    rw [hcnt]
    omega
  refine ⟨hlen, hsucc, ?_, hfail, ?_⟩
  · rw [countP_not_eq, hlen, hsucc]
  · rw [hoccf]
    omega

theorem C2_concurrent_admission_witness :
    (applyAll 0 0 [4, 5, 6] ⟨[⟨0, 2, 100, 200, 9⟩], []⟩).2.length = 3 ∧
    (applyAll 0 0 [4, 5, 6] ⟨[⟨0, 2, 100, 200, 9⟩], []⟩).2.countP applyOk
      = 2 ∧
    (applyAll 0 0 [4, 5, 6]
        ⟨[⟨0, 2, 100, 200, 9⟩], []⟩).2.countP (fun x => !(applyOk x)) = 1 ∧
    (∀ x ∈ (applyAll 0 0 [4, 5, 6] ⟨[⟨0, 2, 100, 200, 9⟩], []⟩).2,
      applyOk x = false → x = .error .capacityExceeded) ∧
    occupancy (applyAll 0 0 [4, 5, 6] ⟨[⟨0, 2, 100, 200, 9⟩], []⟩).1 0 = 2 :=
  C2_concurrent_admission ⟨[⟨0, 2, 100, 200, 9⟩], []⟩ 0 0
    ⟨0, 2, 100, 200, 9⟩ [4, 5, 6] (by decide) (by decide) (by decide)
    (by decide) (by decide)

theorem C8_cancel_preconditions_witness :
    (cancelApplication ⟨[⟨0, 2, 100, 200, 9⟩], [⟨1, 0, 5⟩]⟩ 0 2 0).2 =
      .error .applicationNotFound :=
  ((C8_cancel_preconditions ⟨[⟨0, 2, 100, 200, 9⟩], [⟨1, 0, 5⟩]⟩ 0 2 0).2.2.1
    ⟨0, 2, 100, 200, 9⟩ (by decide) (by decide)).mpr (by decide)

end MClass
